import Mathlib

/-
  Shallow embedding of the swap-pool library (src/src of krypt0nn/swap-pool).

  Conventions of the embedding:
  * File contents and serialized values are byte lists (Bytes).
  * Machine integers (usize, u64) are Nat; Rust checked_sub(..).unwrap_or_default()
    is the truncated subtraction on Nat; u64 wrapping addition is taken mod 2^64.
  * Fallible Rust functions returning SwapResult are Except SwapError.
  * The caller-supplied trait implementations (TryInto<Vec<u8>>, TryFrom<Vec<u8>>,
    SizeOf for the payload type) are a Codec parameter; the pluggable SwapManager
    and SwapTransformer trait objects are function records (ManagerImpl,
    Transformer).  The wall-clock time consumed by SwapLastUseManager and the
    layout constants produced by std::mem::size_of_val are explicit parameters.
  * The filesystem is represented by each entity carrying the contents of its own
    backing file (entities of one pool never share a path), so fs::write sets the
    file field, fs::read reads it, fs::remove_file clears it.  A read of a missing
    file fails with the Io error kind; writes and removals succeed.
  * InplaceCell<Option<T>> is the Option T field of an entity.  update_result
    (inplace_cell.rs lines 84-96) takes the value out, leaves a clone in the cell
    while the updater runs when thread_safe and the default (none) otherwise, and
    stores the local value back on success; on an updater error the cell is left
    holding that transient value.  Each entity operation below inlines this
    discipline.
-/

namespace SwapPool

/-- Serialized bytes: a Vec of u8 values. -/
abbrev Bytes := List Nat

/-- Error taxonomy of error.rs (payloads reduced to messages). -/
inductive SwapError where
  | io
  | serialize (msg : String)
  | deserialize (msg : String)
  | transformForward (msg : String)
  | transformBackward (msg : String)
deriving DecidableEq

/-- Caller-supplied payload capabilities: TryInto<Vec<u8>>, TryFrom<Vec<u8>> and
SizeOf for the value type T of a pool. -/
structure Codec (T : Type) where
  ser : T → Except String Bytes
  deser : Bytes → Except String T
  sizeOf : T → Nat

/-- Layout constants delivered by std::mem::size_of_val in size.rs and
entity.rs: the stack footprint of the InplaceCell, of the Option inside it, and
of the Arc handle reference. -/
structure Layout where
  cellBase : Nat
  optBase : Nat
  arcSize : Nat

/-- SwapTransformer trait object (transformer.rs). -/
structure Transformer where
  forward : Bytes → Except String Bytes
  backward : Bytes → Except String Bytes

/-- SwapIdentityTransformer (transformer.rs lines 14-26). -/
def identityTransformer : Transformer :=
  { forward := Except.ok, backward := Except.ok }

/-- Rank table of the reference managers: HashMap<u64, u64> as an association
list where an insert prepends (lookup takes the first hit, so a prepend is an
overwrite). -/
abbrev RankMap := List (Nat × Nat)

/-- HashMap::get(&uuid).copied().unwrap_or_default(). -/
def ranksGet (m : RankMap) (u : Nat) : Nat :=
  match m.find? (fun p => p.1 == u) with
  | some p => p.2
  | none => 0

/-- HashMap::insert(uuid, rank). -/
def ranksInsert (m : RankMap) (u r : Nat) : RankMap :=
  (u, r) :: m

/-- SwapManager trait object: upgrade mutates the rank table and returns the new
rank, rank reads it. -/
structure ManagerImpl where
  upgrade : RankMap → Nat → Nat × RankMap
  rank : RankMap → Nat → Nat

/-- SwapLastUseManager (manager.rs lines 45-66): upgrade stores and returns the
current wall-clock seconds (passed in as now); rank reads the stored value or 0. -/
def lastUseMgr (now : Nat) : ManagerImpl :=
  { upgrade := fun m u => (now, ranksInsert m u now)
  , rank := fun m u => ranksGet m u }

/-- SwapUpgradeCountManager (manager.rs lines 92-115): upgrade stores and
returns the previous counter plus one (u64 addition, taken mod 2^64); rank reads
the stored counter or 0. -/
def upgradeCountMgr : ManagerImpl :=
  { upgrade := fun m u =>
      let r := (ranksGet m u + 1) % 2 ^ 64
      (r, ranksInsert m u r)
  , rank := fun m u => ranksGet m u }

/-- Static configuration shared by a pool: the payload codec, the layout
constants, and the manager and transformer trait objects stored in SwapHandle. -/
structure Ctx (T : Type) where
  codec : Codec T
  layout : Layout
  mgr : ManagerImpl
  transformer : Transformer

/-- SwapEntity<T> (entity.rs lines 10-15): the InplaceCell<Option<T>> value, the
identity, the backing file (its current contents, or none when absent) and the
capacity of the PathBuf (counted by SizeOf for PathBuf). -/
structure Entity (T : Type) where
  uuid : Nat
  cell : Option T
  file : Option Bytes
  pathCap : Nat
deriving DecidableEq

/-- Mutable state of a pool: the SwapHandle fields (allocated, the thread_safe
flag of its cells, the entity registry) plus the manager rank table. -/
structure Pool (T : Type) where
  allocated : Nat
  threadSafe : Bool
  entities : List (Entity T)
  ranks : RankMap
deriving DecidableEq

variable {T : Type}

/-- SwapEntity::is_hot (entity.rs lines 46-48). -/
def Entity.isHot (e : Entity T) : Bool := e.cell.isSome

/-- SwapEntity::is_cold (entity.rs lines 52-54). -/
def Entity.isCold (e : Entity T) : Bool := e.cell.isNone

/-- Size of the InplaceCell<Option<T>> (inplace_cell.rs lines 141-151 together
with the Option instance of size.rs lines 55-63). -/
def cellSizeOf (ctx : Ctx T) : Option T → Nat
  | some v => ctx.layout.cellBase + (ctx.layout.optBase + ctx.codec.sizeOf v)
  | none => ctx.layout.cellBase + ctx.layout.optBase

/-- SizeOf for SwapEntity (entity.rs lines 250-255): cell size plus the Arc
footprint plus the path capacity. -/
def entitySizeOf (ctx : Ctx T) (e : Entity T) : Nat :=
  cellSizeOf ctx e.cell + ctx.layout.arcSize + e.pathCap

/-- SwapHandle::used (handle.rs lines 88-95): total size of the live hot
entities. -/
def used (ctx : Ctx T) (s : Pool T) : Nat :=
  ((s.entities.filter Entity.isHot).map (entitySizeOf ctx)).sum

/-- SwapHandle::available (handle.rs lines 102-104). -/
def available (ctx : Ctx T) (s : Pool T) : Nat :=
  s.allocated - used ctx s

/-- Replace the entity stored at index i. -/
def setEntity (s : Pool T) (i : Nat) (e : Entity T) : Pool T :=
  { s with entities := s.entities.set i e }

/-- Overwrite the cell of the entity at index i, keeping its other fields. -/
def setCellAt (s : Pool T) (i : Nat) (c : Option T) : Pool T :=
  match s.entities[i]? with
  | none => s
  | some e => setEntity s i { e with cell := c }

/-- Read the cell of the entity at index i (InplaceCell::get_copy). -/
def cellAt (s : Pool T) (i : Nat) : Option T :=
  (s.entities[i]?).bind Entity.cell

/-- State of the pool while an update_result closure for the entity at index i
is running: with thread_safe the cell keeps (a clone of) its value, otherwise it
holds the default none (inplace_cell.rs lines 84-96). -/
def transientAt (s : Pool T) (i : Nat) : Pool T :=
  if s.threadSafe then s else setCellAt s i none

/-- Apply manager.upgrade for a uuid to the pool rank table. -/
def upgradeAt (ctx : Ctx T) (s : Pool T) (u : Nat) : Pool T :=
  { s with ranks := (ctx.mgr.upgrade s.ranks u).2 }

/-- SwapEntity::flush (entity.rs lines 236-247): under update_result, take the
value; if some, serialize it and write the file, leaving the cell empty.  Note
that the transformer is not consulted.  On a serialization error the cell is
left holding the transient value (the original value when thread_safe, none
otherwise).  An out-of-range index models a call through a dead reference and
does not occur in the runs considered here. -/
def flushOp (ctx : Ctx T) (s : Pool T) (i : Nat) : Except SwapError Unit × Pool T :=
  match s.entities[i]? with
  | none => (.ok (), s)
  | some e =>
    match e.cell with
    | none => (.ok (), s)
    | some v =>
      match ctx.codec.ser v with
      | .error msg => (.error (.serialize msg), transientAt s i)
      | .ok bytes => (.ok (), setEntity s i { e with cell := none, file := some bytes })

/-- List of (rank, entity) pairs built by SwapHandle::free (handle.rs lines
131-136), with entities referenced by their registry index; ranks are sampled
from the current rank table. -/
def rankPairs (ctx : Ctx T) (s : Pool T) : List (Nat × Nat) :=
  s.entities.enum.map (fun p => (ctx.mgr.rank s.ranks p.2.uuid, p.1))

/-- Stable insertion of a pair into a list sorted by rank descending; an element
is placed before every later element whose rank is not larger, matching the
stable slice sort with comparator b.0.cmp(&a.0). -/
def insertRankDesc (p : Nat × Nat) : List (Nat × Nat) → List (Nat × Nat)
  | [] => [p]
  | q :: t => if p.1 < q.1 then q :: insertRankDesc p t else p :: q :: t

/-- Stable sort by rank descending (handle.rs line 139). -/
def sortRankDesc : List (Nat × Nat) → List (Nat × Nat)
  | [] => []
  | p :: t => insertRankDesc p (sortRankDesc t)

/-- Body executed by the free loop for one popped entity: if it is hot, read its
size, flush it, and subtract the freed size from the remaining need (handle.rs
lines 147-160).  Returns none when the flush failed. -/
def freeStep (ctx : Ctx T) (i : Nat) (n : Nat) (s : Pool T) :
    Except SwapError Nat × Pool T :=
  match s.entities[i]? with
  | none => (.ok n, s)
  | some e =>
    if e.cell.isSome then
      let pre := entitySizeOf ctx e
      match flushOp ctx s i with
      | (.error err, s2) => (.error err, s2)
      | (.ok _, s2) =>
        let post := ((s2.entities[i]?).map (entitySizeOf ctx)).getD 0
        (.ok (n - (pre - post)), s2)
    else (.ok n, s)

/-- Body of the while loop of SwapHandle::free (handle.rs lines 142-163),
running over the pop order of the stack: while the remaining need is positive,
take the next entity and run the step on it; succeed with true as soon as the
need reaches 0 and with false when the entities run out first. -/
def freeLoopGo (ctx : Ctx T) :
    List (Nat × Nat) → Nat → Pool T → Except SwapError Bool × Pool T
  | _, 0, s => (.ok true, s)
  | [], _ + 1, s => (.ok false, s)
  | p :: rest, m + 1, s =>
    match freeStep ctx p.2 (m + 1) s with
    | (.error err, s2) => (.error err, s2)
    | (.ok n2, s2) => freeLoopGo ctx rest n2 s2

/-- While loop of SwapHandle::free (handle.rs lines 142-163): the loop pops the
entity at the back of the rank-descending stack (the lowest-ranked one), so
Vec::pop visits the stack in reverse order and the loop body runs over the
reversed stack front-first. -/
def freeLoop (ctx : Ctx T) (stack : List (Nat × Nat)) (n : Nat) (s : Pool T) :
    Except SwapError Bool × Pool T :=
  freeLoopGo ctx stack.reverse n s

/-- SwapHandle::free (handle.rs lines 130-164): pair every live entity with its
rank sampled now, sort by rank descending, then run the pop loop. -/
def freeOp (ctx : Ctx T) (s : Pool T) (n : Nat) : Except SwapError Bool × Pool T :=
  freeLoop ctx (sortRankDesc (rankPairs ctx s)) n s

/-- SwapEntity::value (entity.rs lines 108-133): upgrade the rank; under
update_result, take the value or read and deserialize the file; compute the
memory still needed; if none is needed or handle.free reclaims it, store the
value back (hot), otherwise leave the cell empty (the local taken value); on an
updater error the cell keeps whatever the transient state evolved into. -/
def valueOp (ctx : Ctx T) (s : Pool T) (i : Nat) : Except SwapError T × Pool T :=
  match s.entities[i]? with
  | none => (.error .io, s)
  | some e =>
    let s0 := upgradeAt ctx s e.uuid
    let s1 := transientAt s0 i
    match (match e.cell with
           | some v => Except.ok v
           | none =>
             match e.file with
             | none => Except.error SwapError.io
             | some bytes =>
               match ctx.codec.deser bytes with
               | .error msg => Except.error (SwapError.deserialize msg)
               | .ok v => Except.ok v) with
    | .error err => (.error err, s1)
    | .ok v =>
      let need := ctx.codec.sizeOf v - available ctx s1
      if need = 0 then (.ok v, setCellAt s1 i (some v))
      else
        match freeOp ctx s1 need with
        | (.ok true, s2) => (.ok v, setCellAt s2 i (some v))
        | (.ok false, s2) => (.ok v, setCellAt s2 i none)
        | (.error err, s2) => (.error err, s2)

/-- SwapEntity::value_unallocate (entity.rs lines 143-151): no rank upgrade;
under update_result, take the value if hot (the cell is left empty and the file
is not written), or read and deserialize the file if cold (the cell stays
empty).  The backing file is never touched. -/
def valueUnallocateOp (ctx : Ctx T) (s : Pool T) (i : Nat) :
    Except SwapError T × Pool T :=
  match s.entities[i]? with
  | none => (.error .io, s)
  | some e =>
    match e.cell with
    | some v => (.ok v, setEntity s i { e with cell := none })
    | none =>
      match e.file with
      | none => (.error .io, s)
      | some bytes =>
        match ctx.codec.deser bytes with
        | .error msg => (.error (.deserialize msg), s)
        | .ok v => (.ok v, s)

/-- SwapEntity::value_allocate (entity.rs lines 160-175): upgrade the rank;
under update_result, fill the cell from the file when it is empty; then return
InplaceCell::get_copy, on which the source calls Option::unwrap_unchecked.  The
first component ok none would mean that unwrap_unchecked observed None. -/
def valueAllocateOp (ctx : Ctx T) (s : Pool T) (i : Nat) :
    Except SwapError (Option T) × Pool T :=
  match s.entities[i]? with
  | none => (.error .io, s)
  | some e =>
    let s0 := upgradeAt ctx s e.uuid
    let step : Except SwapError Unit × Pool T :=
      match e.cell with
      | some _ => (.ok (), s0)
      | none =>
        match e.file with
        | none => (.error .io, transientAt s0 i)
        | some bytes =>
          match ctx.codec.deser bytes with
          | .error msg => (.error (.deserialize msg), transientAt s0 i)
          | .ok v => (.ok (), setCellAt s0 i (some v))
    match step with
    | (.error err, s1) => (.error err, s1)
    | (.ok _, s1) => (.ok (cellAt s1 i), s1)

/-- SwapEntity::create plus SwapHandle::push_entity as called by
SwapPool::spawn_named (entity.rs lines 75-101, handle.rs lines 31-38): if the
value does not fit into the available memory, serialize it and write the file
(cold), otherwise keep it hot; then register the entity and upgrade its rank. -/
def createOp (ctx : Ctx T) (s : Pool T) (v : T) (uuid pathCap : Nat) :
    Except SwapError Unit × Pool T :=
  if ctx.codec.sizeOf v > available ctx s then
    match ctx.codec.ser v with
    | .error msg => (.error (.serialize msg), s)
    | .ok bytes =>
      let s1 := { s with entities := s.entities ++ [⟨uuid, none, some bytes, pathCap⟩] }
      (.ok (), upgradeAt ctx s1 uuid)
  else
    let s1 := { s with entities := s.entities ++ [⟨uuid, some v, none, pathCap⟩] }
    (.ok (), upgradeAt ctx s1 uuid)

/-- SwapEntity::update (entity.rs lines 188-215): flush the entity, compute the
memory needed beyond the available bytes plus the bytes the (now cold) entity
occupies, reclaim it via handle.free if needed; on success replace the cell by
the new value and remove the backing file, returning true; otherwise return
false. -/
def updateOp (ctx : Ctx T) (s : Pool T) (i : Nat) (v : T) :
    Except SwapError Bool × Pool T :=
  match flushOp ctx s i with
  | (.error err, s1) => (.error err, s1)
  | (.ok _, s1) =>
    match s1.entities[i]? with
    | none => (.error .io, s1)
    | some e1 =>
      let need := ctx.codec.sizeOf v - (available ctx s1 + entitySizeOf ctx e1)
      if need = 0 then
        (.ok true, setEntity s1 i { e1 with cell := some v, file := none })
      else
        match freeOp ctx s1 need with
        | (.error err, s2) => (.error err, s2)
        | (.ok false, s2) => (.ok false, s2)
        | (.ok true, s2) =>
          match s2.entities[i]? with
          | none => (.error .io, s2)
          | some e2 => (.ok true, setEntity s2 i { e2 with cell := some v, file := none })

/-- SwapEntity::replace (entity.rs lines 222-232): unconditionally store the new
value and remove the backing file. -/
def replaceOp (s : Pool T) (i : Nat) (v : T) : Except SwapError Unit × Pool T :=
  match s.entities[i]? with
  | none => (.error .io, s)
  | some e => (.ok (), setEntity s i { e with cell := some v, file := none })

/-- Public operations on one pool, used to describe reachable states. -/
inductive Op (T : Type) where
  | create (v : T) (uuid pathCap : Nat)
  | getValue (i : Nat)
  | valueUnallocate (i : Nat)
  | valueAllocate (i : Nat)
  | update (i : Nat) (v : T)
  | replace (i : Nat) (v : T)
  | flush (i : Nat)

/-- Whether an operation is a value_unallocate call. -/
def Op.usesUnallocate : Op T → Bool
  | .valueUnallocate _ => true
  | _ => false

/-- State reached after one operation (the result is discarded; on an error the
state is the one the failing operation left behind). -/
def applyOp (ctx : Ctx T) (s : Pool T) : Op T → Pool T
  | .create v u pc => (createOp ctx s v u pc).2
  | .getValue i => (valueOp ctx s i).2
  | .valueUnallocate i => (valueUnallocateOp ctx s i).2
  | .valueAllocate i => (valueAllocateOp ctx s i).2
  | .update i v => (updateOp ctx s i v).2
  | .replace i v => (replaceOp s i v).2
  | .flush i => (flushOp ctx s i).2

/-- State reached after a sequence of operations. -/
def runOps (ctx : Ctx T) (s : Pool T) : List (Op T) → Pool T
  | [] => s
  | op :: rest => runOps ctx (applyOp ctx s op) rest

/-- Fresh pool as built by SwapPoolBuilder::build (pool.rs lines 65-72). -/
def emptyPool (T : Type) (allocated : Nat) (threadSafe : Bool) : Pool T :=
  ⟨allocated, threadSafe, [], []⟩

/-- Loop of the eviction algorithm as the specification words it: repeatedly pop
the lowest-ranked entity, that is, walk the rank-descending list from its back,
so here the reversed list from its front; return success-true as soon as the
remaining need reaches 0, success-false when the list is exhausted while the
need is still positive, and run the flush step on every popped entity. -/
def freeSpecLoop (ctx : Ctx T) :
    List (Nat × Nat) → Nat → Pool T → Except SwapError Bool × Pool T
  | _, 0, s => (.ok true, s)
  | [], _ + 1, s => (.ok false, s)
  | p :: rest, n + 1, s =>
    match freeStep ctx p.2 (n + 1) s with
    | (.error err, s2) => (.error err, s2)
    | (.ok n2, s2) => freeSpecLoop ctx rest n2 s2

/-- Eviction algorithm as the specification words it: pair each live entity
with its rank sampled at sort time, sort descending by rank, then repeatedly
pop the lowest-ranked entity (the back of the sorted list first). -/
def freeSpec (ctx : Ctx T) (s : Pool T) (n : Nat) : Except SwapError Bool × Pool T :=
  freeSpecLoop ctx (sortRankDesc (rankPairs ctx s)).reverse n s

/-- Pure model of a std hasher as used by uuid::get: an initial state, a write
step consuming the bytes of one hashed datum, and finish producing the u64.
DefaultHasher, crc32 and xxh3 are all of this pure shape. -/
structure HasherModel (St : Type) where
  init : St
  write : St → Bytes → St
  finish : St → Nat

/-- Feature flags consulted by uuid::get (uuid.rs): whether timestamp-uuid and
random-uuid are enabled. -/
structure UuidConfig where
  timestampUuid : Bool
  randomUuid : Bool

/-- Default feature configuration: neither timestamp-uuid nor random-uuid. -/
def defaultUuidConfig : UuidConfig := ⟨false, false⟩

/-- uuid::get (uuid.rs lines 5-31): build the configured hasher; hash the
current time when timestamp-uuid is on and random-uuid off; hash a fresh random
number when random-uuid is on; hash the value itself unless random-uuid is on;
finish.  The process-dependent inputs (now, entropy) are explicit arguments. -/
def uuidGet {St : Type} (H : HasherModel St) (cfg : UuidConfig)
    (now entropy value : Bytes) : Nat :=
  let h := H.init
  let h := if cfg.timestampUuid && !cfg.randomUuid then H.write h now else h
  let h := if cfg.randomUuid then H.write h entropy else h
  let h := if !cfg.randomUuid then H.write h value else h
  H.finish h

/-- Codec of Vec<u8>: TryInto and TryFrom on Vec<u8> are the identity, and
SizeOf for a Vec (size.rs lines 39-44) adds the stack footprint of the Vec
itself, three 8-byte words on the 64-bit targets this library addresses, to the
summed sizes of the elements (u8 elements have size 1 each). -/
def vecCodec : Codec Bytes :=
  { ser := Except.ok, deser := Except.ok, sizeOf := fun v => 24 + v.length }

/-- Codec like vecCodec whose serialization always fails, modelling a payload
type whose TryInto<Vec<u8>> errors. -/
def failSerCodec : Codec Bytes :=
  { ser := fun _ => .error "ser failed", deser := Except.ok
  , sizeOf := fun v => 24 + v.length }

/-- Transformer appending one zero byte on forward and dropping it on backward;
a minimal non-identity transformer. -/
def appendZero : Transformer :=
  { forward := fun b => .ok (b ++ [0]), backward := fun b => .ok b.dropLast }

/-- Representative 64-bit layout constants for the size_of_val calls. -/
def layout0 : Layout := ⟨16, 16, 8⟩

/-- Context of a default pool over Vec<u8> payloads (SwapUpgradeCountManager is
chosen over the time-dependent default manager to keep runs closed terms). -/
def vecCtx : Ctx Bytes := ⟨vecCodec, layout0, upgradeCountMgr, identityTransformer⟩

/-- vecCtx with the non-identity transformer installed. -/
def vecCtxZero : Ctx Bytes := ⟨vecCodec, layout0, upgradeCountMgr, appendZero⟩

/-- vecCtx with the failing serializer. -/
def failCtx : Ctx Bytes := ⟨failSerCodec, layout0, upgradeCountMgr, identityTransformer⟩

/-- Half of invariant P1: every cold entity has a backing file. -/
def coldHasFile (s : Pool T) : Prop :=
  ∀ e ∈ s.entities, e.cell = none → e.file ≠ none

/-- Pool shape preserved by the eviction layer: budget, flag, rank table and
entity count. -/
def sameShape (s1 s2 : Pool T) : Prop :=
  s1.allocated = s2.allocated ∧ s1.threadSafe = s2.threadSafe ∧
  s1.ranks = s2.ranks ∧ s1.entities.length = s2.entities.length

lemma setEntity_allocated (s : Pool T) (i : Nat) (e : Entity T) :
    (setEntity s i e).allocated = s.allocated := rfl

lemma setEntity_threadSafe (s : Pool T) (i : Nat) (e : Entity T) :
    (setEntity s i e).threadSafe = s.threadSafe := rfl

lemma setEntity_ranks (s : Pool T) (i : Nat) (e : Entity T) :
    (setEntity s i e).ranks = s.ranks := rfl

lemma setEntity_length (s : Pool T) (i : Nat) (e : Entity T) :
    (setEntity s i e).entities.length = s.entities.length := by
  simp [setEntity]

lemma setEntity_get_self {s : Pool T} {i : Nat} (e : Entity T)
    (h : i < s.entities.length) : (setEntity s i e).entities[i]? = some e := by
  simp [setEntity, List.getElem?_set, h]

lemma setEntity_get_ne {s : Pool T} {i j : Nat} (e : Entity T) (h : i ≠ j) :
    (setEntity s i e).entities[j]? = s.entities[j]? := by
  simp [setEntity, List.getElem?_set, h]

lemma lt_length_of_get {s : Pool T} {i : Nat} {e : Entity T}
    (h : s.entities[i]? = some e) : i < s.entities.length := by
  by_contra hn
  rw [List.getElem?_eq_none (by omega)] at h
  exact Option.noConfusion h

lemma coldHasFile_setEntity {s : Pool T} {i : Nat} {e : Entity T}
    (hs : coldHasFile s) (he : e.cell = none → e.file ≠ none) :
    coldHasFile (setEntity s i e) := by
  intro x hx hcell
  rcases List.mem_or_eq_of_mem_set hx with hmem | rfl
  · exact hs x hmem hcell
  · exact he hcell

lemma upgradeAt_entities (ctx : Ctx T) (s : Pool T) (u : Nat) :
    (upgradeAt ctx s u).entities = s.entities := rfl

lemma upgradeAt_allocated (ctx : Ctx T) (s : Pool T) (u : Nat) :
    (upgradeAt ctx s u).allocated = s.allocated := rfl

lemma upgradeAt_threadSafe (ctx : Ctx T) (s : Pool T) (u : Nat) :
    (upgradeAt ctx s u).threadSafe = s.threadSafe := rfl

lemma coldHasFile_upgradeAt {ctx : Ctx T} {s : Pool T} {u : Nat}
    (hs : coldHasFile s) : coldHasFile (upgradeAt ctx s u) := hs

lemma transientAt_of_threadSafe {s : Pool T} (i : Nat) (h : s.threadSafe = true) :
    transientAt s i = s := by
  simp [transientAt, h]

lemma flushOp_eq_missing {ctx : Ctx T} {s : Pool T} {i : Nat}
    (hg : s.entities[i]? = none) : flushOp ctx s i = (.ok (), s) := by
  unfold flushOp; rw [hg]

lemma flushOp_eq_cold {ctx : Ctx T} {s : Pool T} {i : Nat} {e : Entity T}
    (hg : s.entities[i]? = some e) (hc : e.cell = none) :
    flushOp ctx s i = (.ok (), s) := by
  unfold flushOp; simp only [hg, hc]

lemma flushOp_eq_serError {ctx : Ctx T} {s : Pool T} {i : Nat} {e : Entity T}
    {v : T} {msg : String}
    (hg : s.entities[i]? = some e) (hc : e.cell = some v)
    (hser : ctx.codec.ser v = .error msg) :
    flushOp ctx s i = (.error (.serialize msg), transientAt s i) := by
  unfold flushOp; simp only [hg, hc, hser]

lemma flushOp_eq_ok {ctx : Ctx T} {s : Pool T} {i : Nat} {e : Entity T}
    {v : T} {bytes : Bytes}
    (hg : s.entities[i]? = some e) (hc : e.cell = some v)
    (hser : ctx.codec.ser v = .ok bytes) :
    flushOp ctx s i = (.ok (), setEntity s i { e with cell := none, file := some bytes }) := by
  unfold flushOp; simp only [hg, hc, hser]

lemma sameShape_refl (s : Pool T) : sameShape s s := ⟨rfl, rfl, rfl, rfl⟩

lemma sameShape_trans {s1 s2 s3 : Pool T}
    (h1 : sameShape s1 s2) (h2 : sameShape s2 s3) : sameShape s1 s3 :=
  ⟨h1.1.trans h2.1, h1.2.1.trans h2.2.1, h1.2.2.1.trans h2.2.2.1,
   h1.2.2.2.trans h2.2.2.2⟩

lemma transientAt_shape (s : Pool T) (i : Nat) : sameShape s (transientAt s i) := by
  unfold transientAt
  split
  · exact sameShape_refl s
  · unfold setCellAt
    split
    · exact sameShape_refl s
    · exact ⟨rfl, rfl, rfl, (setEntity_length ..).symm⟩

lemma transientAt_get_ne {s : Pool T} {i j : Nat} (h : i ≠ j) :
    (transientAt s i).entities[j]? = s.entities[j]? := by
  unfold transientAt
  split
  · rfl
  · unfold setCellAt
    split
    · rfl
    · exact setEntity_get_ne _ h

lemma flushOp_shape (ctx : Ctx T) (s : Pool T) (i : Nat) :
    sameShape s (flushOp ctx s i).2 := by
  cases hg : s.entities[i]? with
  | none => rw [flushOp_eq_missing hg]; exact sameShape_refl s
  | some e =>
    cases hc : e.cell with
    | none => rw [flushOp_eq_cold hg hc]; exact sameShape_refl s
    | some v =>
      cases hser : ctx.codec.ser v with
      | error msg => rw [flushOp_eq_serError hg hc hser]; exact transientAt_shape s i
      | ok bytes =>
        rw [flushOp_eq_ok hg hc hser]
        exact ⟨rfl, rfl, rfl, (setEntity_length ..).symm⟩

lemma flushOp_get_ne (ctx : Ctx T) (s : Pool T) {i j : Nat} (h : i ≠ j) :
    (flushOp ctx s i).2.entities[j]? = s.entities[j]? := by
  cases hg : s.entities[i]? with
  | none => rw [flushOp_eq_missing hg]
  | some e =>
    cases hc : e.cell with
    | none => rw [flushOp_eq_cold hg hc]
    | some v =>
      cases hser : ctx.codec.ser v with
      | error msg => rw [flushOp_eq_serError hg hc hser]; exact transientAt_get_ne h
      | ok bytes => rw [flushOp_eq_ok hg hc hser]; exact setEntity_get_ne _ h

lemma flushOp_coldHasFile {ctx : Ctx T} {s : Pool T} {i : Nat}
    (hts : s.threadSafe = true) (hs : coldHasFile s) :
    coldHasFile (flushOp ctx s i).2 := by
  cases hg : s.entities[i]? with
  | none => rw [flushOp_eq_missing hg]; exact hs
  | some e =>
    cases hc : e.cell with
    | none => rw [flushOp_eq_cold hg hc]; exact hs
    | some v =>
      cases hser : ctx.codec.ser v with
      | error msg =>
        rw [flushOp_eq_serError hg hc hser, transientAt_of_threadSafe i hts]
        exact hs
      | ok bytes =>
        rw [flushOp_eq_ok hg hc hser]
        exact coldHasFile_setEntity hs (by intro _; simp)

lemma flushOp_error_threadSafe {ctx : Ctx T} {s : Pool T} {i : Nat}
    (hts : s.threadSafe = true) {err : SwapError} {s2 : Pool T}
    (hres : flushOp ctx s i = (.error err, s2)) : s2 = s := by
  cases hg : s.entities[i]? with
  | none => rw [flushOp_eq_missing hg] at hres; exact absurd (congrArg Prod.fst hres) (by simp)
  | some e =>
    cases hc : e.cell with
    | none => rw [flushOp_eq_cold hg hc] at hres; exact absurd (congrArg Prod.fst hres) (by simp)
    | some v =>
      cases hser : ctx.codec.ser v with
      | ok bytes =>
        rw [flushOp_eq_ok hg hc hser] at hres
        exact absurd (congrArg Prod.fst hres) (by simp)
      | error msg =>
        rw [flushOp_eq_serError hg hc hser] at hres
        have h2 := congrArg Prod.snd hres
        simp only at h2
        rw [← h2, transientAt_of_threadSafe i hts]

lemma freeStep_eq_missing {ctx : Ctx T} {s : Pool T} {i n : Nat}
    (hg : s.entities[i]? = none) : freeStep ctx i n s = (.ok n, s) := by
  unfold freeStep; rw [hg]

lemma freeStep_eq_cold {ctx : Ctx T} {s : Pool T} {i n : Nat} {e : Entity T}
    (hg : s.entities[i]? = some e) (hc : e.cell = none) :
    freeStep ctx i n s = (.ok n, s) := by
  unfold freeStep; simp only [hg, hc, Option.isSome_none, Bool.false_eq_true,
    if_false]

lemma freeStep_eq_flushError {ctx : Ctx T} {s : Pool T} {i n : Nat} {e : Entity T}
    {v : T} {err : SwapError} {s2 : Pool T}
    (hg : s.entities[i]? = some e) (hc : e.cell = some v)
    (hflush : flushOp ctx s i = (.error err, s2)) :
    freeStep ctx i n s = (.error err, s2) := by
  unfold freeStep
  simp only [hg, hc, Option.isSome_some, if_true, hflush]

lemma freeStep_eq_flushOk {ctx : Ctx T} {s : Pool T} {i n : Nat} {e : Entity T}
    {v : T} {u : Unit} {s2 : Pool T}
    (hg : s.entities[i]? = some e) (hc : e.cell = some v)
    (hflush : flushOp ctx s i = (.ok u, s2)) :
    freeStep ctx i n s =
      (.ok (n - (entitySizeOf ctx e -
        (((s2.entities[i]?).map (entitySizeOf ctx)).getD 0))), s2) := by
  unfold freeStep
  simp only [hg, hc, Option.isSome_some, if_true, hflush]

/-- The state after a free step is exactly the state after the inner flush. -/
lemma freeStep_snd (ctx : Ctx T) (i n : Nat) (s : Pool T) :
    (freeStep ctx i n s).2 = (flushOp ctx s i).2 := by
  cases hg : s.entities[i]? with
  | none => rw [freeStep_eq_missing hg, flushOp_eq_missing hg]
  | some e =>
    cases hc : e.cell with
    | none => rw [freeStep_eq_cold hg hc, flushOp_eq_cold hg hc]
    | some v =>
      cases hflush : flushOp ctx s i with
      | mk r s2 =>
        cases r with
        | error err => rw [freeStep_eq_flushError hg hc hflush]
        | ok u => rw [freeStep_eq_flushOk hg hc hflush]

lemma freeStep_shape (ctx : Ctx T) (i n : Nat) (s : Pool T) :
    sameShape s (freeStep ctx i n s).2 := by
  rw [freeStep_snd]; exact flushOp_shape ctx s i

lemma freeStep_get_ne {ctx : Ctx T} {s : Pool T} {i j : Nat} (n : Nat) (h : i ≠ j) :
    (freeStep ctx i n s).2.entities[j]? = s.entities[j]? := by
  rw [freeStep_snd]; exact flushOp_get_ne ctx s h

lemma freeStep_coldHasFile {ctx : Ctx T} {s : Pool T} {i n : Nat}
    (hts : s.threadSafe = true) (hs : coldHasFile s) :
    coldHasFile (freeStep ctx i n s).2 := by
  rw [freeStep_snd]; exact flushOp_coldHasFile hts hs

lemma freeStep_cold_get {ctx : Ctx T} {s : Pool T} {i n k : Nat} {e : Entity T}
    (hg : s.entities[k]? = some e) (hc : e.cell = none) :
    (freeStep ctx i n s).2.entities[k]? = some e := by
  rw [freeStep_snd]
  by_cases h : i = k
  · subst h; rw [flushOp_eq_cold hg hc]; exact hg
  · rw [flushOp_get_ne ctx s h]; exact hg

lemma freeStep_ok_le {ctx : Ctx T} {s s2 : Pool T} {i n n2 : Nat}
    (hres : freeStep ctx i n s = (.ok n2, s2)) : n2 ≤ n := by
  cases hg : s.entities[i]? with
  | none =>
    rw [freeStep_eq_missing hg] at hres
    have := congrArg Prod.fst hres
    simp only [Except.ok.injEq] at this
    omega
  | some e =>
    cases hc : e.cell with
    | none =>
      rw [freeStep_eq_cold hg hc] at hres
      have := congrArg Prod.fst hres
      simp only [Except.ok.injEq] at this
      omega
    | some v =>
      cases hflush : flushOp ctx s i with
      | mk r sf =>
        cases r with
        | error err =>
          rw [freeStep_eq_flushError hg hc hflush] at hres
          exact absurd (congrArg Prod.fst hres) (by simp)
        | ok u =>
          rw [freeStep_eq_flushOk hg hc hflush] at hres
          have := congrArg Prod.fst hres
          simp only [Except.ok.injEq] at this
          omega

/-- Flushing a hot entity through a free step either fails, or succeeds
reclaiming exactly the size of its value. -/
lemma freeStep_hot {ctx : Ctx T} {s : Pool T} {i n : Nat} {e : Entity T} {v : T}
    (hg : s.entities[i]? = some e) (hc : e.cell = some v) :
    (∃ err s2, freeStep ctx i n s = (.error err, s2)) ∨
    (∃ bytes, ctx.codec.ser v = .ok bytes ∧
      freeStep ctx i n s =
        (.ok (n - ctx.codec.sizeOf v),
         setEntity s i { e with cell := none, file := some bytes })) := by
  cases hser : ctx.codec.ser v with
  | error msg =>
    exact Or.inl ⟨_, _, freeStep_eq_flushError hg hc (flushOp_eq_serError hg hc hser)⟩
  | ok bytes =>
    refine Or.inr ⟨bytes, rfl, ?_⟩
    rw [freeStep_eq_flushOk hg hc (flushOp_eq_ok hg hc hser)]
    have hlt : i < s.entities.length := lt_length_of_get hg
    rw [setEntity_get_self _ hlt]
    have harith :
        entitySizeOf ctx e -
          entitySizeOf ctx { e with cell := none, file := some bytes } =
        ctx.codec.sizeOf v := by
      unfold entitySizeOf cellSizeOf
      simp only [hc]
      omega
    simp only [Option.map_some', Option.getD_some, harith]

lemma freeSpecLoop_zero (ctx : Ctx T) (l : List (Nat × Nat)) (s : Pool T) :
    freeSpecLoop ctx l 0 s = (.ok true, s) := by
  cases l <;> rfl

lemma freeSpecLoop_eq_nil {ctx : Ctx T} {n : Nat} (s : Pool T) (hn : n ≠ 0) :
    freeSpecLoop ctx ([] : List (Nat × Nat)) n s = (.ok false, s) := by
  cases n with
  | zero => exact absurd rfl hn
  | succ m => rfl

lemma freeSpecLoop_eq_cons {ctx : Ctx T} {n : Nat} (p : Nat × Nat)
    (rest : List (Nat × Nat)) (s : Pool T) (hn : n ≠ 0) :
    freeSpecLoop ctx (p :: rest) n s =
      match freeStep ctx p.2 n s with
      | (.error err, s2) => (.error err, s2)
      | (.ok n2, s2) => freeSpecLoop ctx rest n2 s2 := by
  cases n with
  | zero => exact absurd rfl hn
  | succ m => rfl

lemma freeSpecLoop_shape (ctx : Ctx T) (l : List (Nat × Nat)) :
    ∀ (n : Nat) (s : Pool T), sameShape s (freeSpecLoop ctx l n s).2 := by
  induction l with
  | nil =>
    intro n s
    cases n with
    | zero => rw [freeSpecLoop_zero]; exact sameShape_refl s
    | succ m => rw [freeSpecLoop_eq_nil s (by omega)]; exact sameShape_refl s
  | cons p rest ih =>
    intro n s
    cases n with
    | zero => rw [freeSpecLoop_zero]; exact sameShape_refl s
    | succ m =>
      rw [freeSpecLoop_eq_cons p rest s (by omega)]
      cases hstep : freeStep ctx p.2 (m + 1) s with
      | mk r s2 =>
        have hshape : sameShape s s2 := by
          have h1 := freeStep_shape ctx p.2 (m + 1) s
          rw [hstep] at h1
          exact h1
        cases r with
        | error err => exact hshape
        | ok n2 => exact sameShape_trans hshape (ih n2 s2)

lemma freeSpecLoop_coldHasFile (ctx : Ctx T) (l : List (Nat × Nat)) :
    ∀ (n : Nat) (s : Pool T), s.threadSafe = true → coldHasFile s →
      coldHasFile (freeSpecLoop ctx l n s).2 := by
  induction l with
  | nil =>
    intro n s _ hs
    cases n with
    | zero => rw [freeSpecLoop_zero]; exact hs
    | succ m => rw [freeSpecLoop_eq_nil s (by omega)]; exact hs
  | cons p rest ih =>
    intro n s hts hs
    cases n with
    | zero => rw [freeSpecLoop_zero]; exact hs
    | succ m =>
      rw [freeSpecLoop_eq_cons p rest s (by omega)]
      cases hstep : freeStep ctx p.2 (m + 1) s with
      | mk r s2 =>
        have hcold : coldHasFile (freeStep ctx p.2 (m + 1) s).2 :=
          freeStep_coldHasFile hts hs
        have hshape : sameShape s (freeStep ctx p.2 (m + 1) s).2 :=
          freeStep_shape ctx p.2 (m + 1) s
        rw [hstep] at hcold hshape
        cases r with
        | error err => exact hcold
        | ok n2 => exact ih n2 s2 (hshape.2.1 ▸ hts) hcold

/-- A cold entity is never touched by the free loop. -/
lemma freeSpecLoop_cold_get (ctx : Ctx T) (l : List (Nat × Nat)) :
    ∀ (n : Nat) (s : Pool T) (k : Nat) (e : Entity T),
      s.entities[k]? = some e → e.cell = none →
      (freeSpecLoop ctx l n s).2.entities[k]? = some e := by
  induction l with
  | nil =>
    intro n s k e hg _
    cases n with
    | zero => rw [freeSpecLoop_zero]; exact hg
    | succ m => rw [freeSpecLoop_eq_nil s (by omega)]; exact hg
  | cons p rest ih =>
    intro n s k e hg hc
    cases n with
    | zero => rw [freeSpecLoop_zero]; exact hg
    | succ m =>
      rw [freeSpecLoop_eq_cons p rest s (by omega)]
      cases hstep : freeStep ctx p.2 (m + 1) s with
      | mk r s2 =>
        have hg2 : (freeStep ctx p.2 (m + 1) s).2.entities[k]? = some e :=
          freeStep_cold_get hg hc
        rw [hstep] at hg2
        cases r with
        | error err => exact hg2
        | ok n2 => exact ih n2 s2 k e hg2 hc

/-- If some entity in the stack is hot and its value alone covers the remaining
need, the free loop cannot return success-false. -/
lemma freeSpecLoop_hot_ne_false (ctx : Ctx T) (l : List (Nat × Nat)) :
    ∀ (n : Nat) (s : Pool T) (k : Nat) (e : Entity T) (v : T),
      s.entities[k]? = some e → e.cell = some v →
      k ∈ l.map Prod.snd → n ≤ ctx.codec.sizeOf v →
      (freeSpecLoop ctx l n s).1 ≠ .ok false := by
  induction l with
  | nil => intro n s k e v _ _ hmem _; simp at hmem
  | cons p rest ih =>
    intro n s k e v hg hc hmem hn
    cases n with
    | zero => rw [freeSpecLoop_zero]; simp
    | succ m =>
      rw [freeSpecLoop_eq_cons p rest s (by omega)]
      by_cases hpk : p.2 = k
      · rw [hpk]
        rcases freeStep_hot (n := m + 1) hg hc with ⟨err, s2, hstep⟩ | ⟨bytes, _, hstep⟩
        · rw [hstep]
          simp
        · rw [hstep]
          have hz : m + 1 - ctx.codec.sizeOf v = 0 := by omega
          rw [hz]
          show (freeSpecLoop ctx rest 0 _).1 ≠ Except.ok false
          rw [freeSpecLoop_zero]
          simp
      · cases hstep : freeStep ctx p.2 (m + 1) s with
        | mk r s2 =>
          have hgne : (freeStep ctx p.2 (m + 1) s).2.entities[k]? = s.entities[k]? :=
            freeStep_get_ne (m + 1) hpk
          rw [hstep] at hgne
          cases r with
          | error err => simp
          | ok n2 =>
            have hmem2 : k ∈ rest.map Prod.snd := by
              simp only [List.map_cons, List.mem_cons] at hmem
              rcases hmem with h1 | h1
              · exact absurd h1.symm hpk
              · exact h1
            exact ih n2 s2 k e v (hgne.trans hg) hc hmem2
              (le_trans (freeStep_ok_le hstep) hn)

/-- The free loop body coincides with the loop of the specified eviction
algorithm. -/
lemma freeLoopGo_eq_specLoop (ctx : Ctx T) (l : List (Nat × Nat)) :
    ∀ (n : Nat) (s : Pool T), freeLoopGo ctx l n s = freeSpecLoop ctx l n s := by
  induction l with
  | nil => intro n s; cases n <;> rfl
  | cons p rest ih =>
    intro n s
    cases n with
    | zero => rfl
    | succ m =>
      unfold freeLoopGo
      rw [freeSpecLoop_eq_cons p rest s (Nat.succ_ne_zero m)]
      cases hstep : freeStep ctx p.2 (m + 1) s with
      | mk r s2 =>
        cases r with
        | error err => rfl
        | ok n2 => exact ih n2 s2

/-- Popping the rank-descending stack from its back is processing its reversal
from the front. -/
lemma freeLoop_eq_spec (ctx : Ctx T) (stack : List (Nat × Nat)) :
    ∀ (n : Nat) (s : Pool T), freeLoop ctx stack n s = freeSpecLoop ctx stack.reverse n s := by
  intro n s
  unfold freeLoop
  exact freeLoopGo_eq_specLoop ctx stack.reverse n s

lemma freeOp_eq_spec (ctx : Ctx T) (s : Pool T) (n : Nat) :
    freeOp ctx s n = freeSpecLoop ctx (sortRankDesc (rankPairs ctx s)).reverse n s := by
  unfold freeOp
  exact freeLoop_eq_spec ctx (sortRankDesc (rankPairs ctx s)) n s

lemma mem_insertRankDesc {p q : Nat × Nat} {l : List (Nat × Nat)} :
    q ∈ insertRankDesc p l ↔ q = p ∨ q ∈ l := by
  induction l with
  | nil => simp [insertRankDesc]
  | cons r t ih =>
    unfold insertRankDesc
    by_cases h : p.1 < r.1
    · rw [if_pos h]
      simp only [List.mem_cons, ih]
      tauto
    · rw [if_neg h]
      simp only [List.mem_cons]

lemma mem_sortRankDesc {q : Nat × Nat} {l : List (Nat × Nat)} :
    q ∈ sortRankDesc l ↔ q ∈ l := by
  induction l with
  | nil => simp [sortRankDesc]
  | cons p t ih => simp [sortRankDesc, mem_insertRankDesc, ih]

lemma mem_rankPairs_snd {ctx : Ctx T} {s : Pool T} {k : Nat} {e : Entity T}
    (hg : s.entities[k]? = some e) : k ∈ (rankPairs ctx s).map Prod.snd := by
  unfold rankPairs
  rw [List.map_map]
  have hmap : (Prod.snd ∘ fun p : Nat × Entity T =>
      (ctx.mgr.rank s.ranks p.2.uuid, p.1)) = Prod.fst := rfl
  rw [hmap, List.enum_map_fst]
  exact List.mem_range.mpr (lt_length_of_get hg)

lemma mem_sortRankDesc_reverse_snd {ctx : Ctx T} {s : Pool T} {k : Nat}
    {e : Entity T} (hg : s.entities[k]? = some e) :
    k ∈ ((sortRankDesc (rankPairs ctx s)).reverse).map Prod.snd := by
  rw [List.map_reverse, List.mem_reverse]
  rcases List.mem_map.mp (mem_rankPairs_snd hg) with ⟨q, hq, hqk⟩
  exact List.mem_map.mpr ⟨q, mem_sortRankDesc.mpr hq, hqk⟩

lemma freeOp_shape (ctx : Ctx T) (s : Pool T) (n : Nat) :
    sameShape s (freeOp ctx s n).2 := by
  rw [freeOp_eq_spec]
  exact freeSpecLoop_shape ctx _ n s

lemma freeOp_coldHasFile {ctx : Ctx T} {s : Pool T} {n : Nat}
    (hts : s.threadSafe = true) (hs : coldHasFile s) :
    coldHasFile (freeOp ctx s n).2 := by
  rw [freeOp_eq_spec]
  exact freeSpecLoop_coldHasFile ctx _ n s hts hs

lemma freeOp_cold_get {ctx : Ctx T} {s : Pool T} {n k : Nat} {e : Entity T}
    (hg : s.entities[k]? = some e) (hc : e.cell = none) :
    (freeOp ctx s n).2.entities[k]? = some e := by
  rw [freeOp_eq_spec]
  exact freeSpecLoop_cold_get ctx _ n s k e hg hc

/-- Called while an entity hot enough to cover the whole need is registered,
free never reports failure. -/
lemma freeOp_hot_ne_false {ctx : Ctx T} {s : Pool T} {n k : Nat} {e : Entity T}
    {v : T} (hg : s.entities[k]? = some e) (hc : e.cell = some v)
    (hn : n ≤ ctx.codec.sizeOf v) : (freeOp ctx s n).1 ≠ .ok false := by
  rw [freeOp_eq_spec]
  exact freeSpecLoop_hot_ne_false ctx _ n s k e v hg hc
    (mem_sortRankDesc_reverse_snd hg) hn

lemma setCellAt_ranks (s : Pool T) (i : Nat) (c : Option T) :
    (setCellAt s i c).ranks = s.ranks := by
  unfold setCellAt
  split <;> rfl

lemma setCellAt_threadSafe (s : Pool T) (i : Nat) (c : Option T) :
    (setCellAt s i c).threadSafe = s.threadSafe := by
  unfold setCellAt
  split <;> rfl

lemma setCellAt_allocated (s : Pool T) (i : Nat) (c : Option T) :
    (setCellAt s i c).allocated = s.allocated := by
  unfold setCellAt
  split <;> rfl

lemma setCellAt_get_self {s : Pool T} {i : Nat} {e : Entity T} (c : Option T)
    (hg : s.entities[i]? = some e) :
    (setCellAt s i c).entities[i]? = some { e with cell := c } := by
  unfold setCellAt
  simp only [hg]
  exact setEntity_get_self _ (lt_length_of_get hg)

lemma entity_set_cell_none_self {e : Entity T} (hc : e.cell = none) :
    ({ e with cell := none } : Entity T) = e := by
  cases e
  simp only at hc
  rw [hc]

lemma get_isSome_of_lt {s : Pool T} {i : Nat} (h : i < s.entities.length) :
    ∃ e, s.entities[i]? = some e := by
  cases hg : s.entities[i]? with
  | none => rw [List.getElem?_eq_none_iff] at hg; omega
  | some e => exact ⟨e, rfl⟩

lemma valueOp_eq_missing {ctx : Ctx T} {s : Pool T} {i : Nat}
    (hg : s.entities[i]? = none) : valueOp ctx s i = (.error .io, s) := by
  unfold valueOp; rw [hg]

/-- valueOp on a known hot entity, spelled out. -/
lemma valueOp_eq_hot {ctx : Ctx T} {s : Pool T} {i : Nat} {e : Entity T} {v : T}
    (hg : s.entities[i]? = some e) (hc : e.cell = some v) :
    valueOp ctx s i =
      (let s1 := transientAt (upgradeAt ctx s e.uuid) i
       let need := ctx.codec.sizeOf v - available ctx s1
       if need = 0 then (.ok v, setCellAt s1 i (some v))
       else
         match freeOp ctx s1 need with
         | (.ok true, s2) => (.ok v, setCellAt s2 i (some v))
         | (.ok false, s2) => (.ok v, setCellAt s2 i none)
         | (.error err, s2) => (.error err, s2)) := by
  unfold valueOp
  simp only [hg, hc]

/-- valueOp on a known cold entity whose file deserializes, spelled out. -/
lemma valueOp_eq_cold {ctx : Ctx T} {s : Pool T} {i : Nat} {e : Entity T}
    {b : Bytes} {v : T}
    (hg : s.entities[i]? = some e) (hc : e.cell = none) (hf : e.file = some b)
    (hdeser : ctx.codec.deser b = .ok v) :
    valueOp ctx s i =
      (let s1 := transientAt (upgradeAt ctx s e.uuid) i
       let need := ctx.codec.sizeOf v - available ctx s1
       if need = 0 then (.ok v, setCellAt s1 i (some v))
       else
         match freeOp ctx s1 need with
         | (.ok true, s2) => (.ok v, setCellAt s2 i (some v))
         | (.ok false, s2) => (.ok v, setCellAt s2 i none)
         | (.error err, s2) => (.error err, s2)) := by
  unfold valueOp
  simp only [hg, hc, hf, hdeser]

/-- valueOp on a cold entity with no backing file fails with Io. -/
lemma valueOp_eq_cold_noFile {ctx : Ctx T} {s : Pool T} {i : Nat} {e : Entity T}
    (hg : s.entities[i]? = some e) (hc : e.cell = none) (hf : e.file = none) :
    valueOp ctx s i = (.error .io, transientAt (upgradeAt ctx s e.uuid) i) := by
  unfold valueOp
  simp only [hg, hc, hf]

/-- valueOp on a cold entity whose file does not deserialize fails. -/
lemma valueOp_eq_cold_badFile {ctx : Ctx T} {s : Pool T} {i : Nat} {e : Entity T}
    {b : Bytes} {msg : String}
    (hg : s.entities[i]? = some e) (hc : e.cell = none) (hf : e.file = some b)
    (hdeser : ctx.codec.deser b = .error msg) :
    valueOp ctx s i =
      (.error (.deserialize msg), transientAt (upgradeAt ctx s e.uuid) i) := by
  unfold valueOp
  simp only [hg, hc, hf, hdeser]

/-- valueOp on a hot entity of a thread-safe pool. -/
lemma valueOp_eq_hot_ts {ctx : Ctx T} {s : Pool T} {i : Nat} {e : Entity T} {v : T}
    (hts : s.threadSafe = true) (hg : s.entities[i]? = some e)
    (hc : e.cell = some v) :
    valueOp ctx s i =
      (if ctx.codec.sizeOf v - available ctx (upgradeAt ctx s e.uuid) = 0
       then (.ok v, setCellAt (upgradeAt ctx s e.uuid) i (some v))
       else
         match freeOp ctx (upgradeAt ctx s e.uuid)
             (ctx.codec.sizeOf v - available ctx (upgradeAt ctx s e.uuid)) with
         | (.ok true, s2) => (.ok v, setCellAt s2 i (some v))
         | (.ok false, s2) => (.ok v, setCellAt s2 i none)
         | (.error err, s2) => (.error err, s2)) := by
  rw [valueOp_eq_hot hg hc]
  have hts0 : (upgradeAt ctx s e.uuid).threadSafe = true := hts
  simp only [transientAt_of_threadSafe i hts0]

/-- valueOp on a cold entity of a thread-safe pool whose file deserializes. -/
lemma valueOp_eq_cold_ts {ctx : Ctx T} {s : Pool T} {i : Nat} {e : Entity T}
    {b : Bytes} {v : T}
    (hts : s.threadSafe = true) (hg : s.entities[i]? = some e)
    (hc : e.cell = none) (hf : e.file = some b)
    (hdeser : ctx.codec.deser b = .ok v) :
    valueOp ctx s i =
      (if ctx.codec.sizeOf v - available ctx (upgradeAt ctx s e.uuid) = 0
       then (.ok v, setCellAt (upgradeAt ctx s e.uuid) i (some v))
       else
         match freeOp ctx (upgradeAt ctx s e.uuid)
             (ctx.codec.sizeOf v - available ctx (upgradeAt ctx s e.uuid)) with
         | (.ok true, s2) => (.ok v, setCellAt s2 i (some v))
         | (.ok false, s2) => (.ok v, setCellAt s2 i none)
         | (.error err, s2) => (.error err, s2)) := by
  rw [valueOp_eq_cold hg hc hf hdeser]
  have hts0 : (upgradeAt ctx s e.uuid).threadSafe = true := hts
  simp only [transientAt_of_threadSafe i hts0]

/-- In a thread-safe pool, SwapEntity::value preserves the cold-has-file
invariant. -/
lemma valueOp_coldHasFile {ctx : Ctx T} {s : Pool T} {i : Nat}
    (hts : s.threadSafe = true) (hs : coldHasFile s) :
    coldHasFile (valueOp ctx s i).2 := by
  cases hg : s.entities[i]? with
  | none => rw [valueOp_eq_missing hg]; exact hs
  | some e =>
    have hg0 : (upgradeAt ctx s e.uuid).entities[i]? = some e := hg
    have hts0 : (upgradeAt ctx s e.uuid).threadSafe = true := hts
    have hs0 : coldHasFile (upgradeAt ctx s e.uuid) := hs
    cases hc : e.cell with
    | some v =>
      rw [valueOp_eq_hot_ts hts hg hc]
      by_cases hneed :
          ctx.codec.sizeOf v - available ctx (upgradeAt ctx s e.uuid) = 0
      · rw [if_pos hneed]
        unfold setCellAt
        simp only [hg0]
        exact coldHasFile_setEntity hs0 (by intro hx; simp at hx)
      · rw [if_neg hneed]
        cases hfree : freeOp ctx (upgradeAt ctx s e.uuid)
            (ctx.codec.sizeOf v - available ctx (upgradeAt ctx s e.uuid)) with
        | mk rf s2f =>
          have hcold2 : coldHasFile s2f := by
            have h1 : coldHasFile (freeOp ctx (upgradeAt ctx s e.uuid)
                (ctx.codec.sizeOf v - available ctx (upgradeAt ctx s e.uuid))).2 :=
              freeOp_coldHasFile hts0 hs0
            rw [hfree] at h1
            exact h1
          cases rf with
          | error err => exact hcold2
          | ok bfree =>
            cases bfree with
            | true =>
              have hlt : i < s2f.entities.length := by
                have hsh := freeOp_shape ctx (upgradeAt ctx s e.uuid)
                  (ctx.codec.sizeOf v - available ctx (upgradeAt ctx s e.uuid))
                rw [hfree] at hsh
                have := hsh.2.2.2
                rw [← this]
                exact lt_length_of_get hg0
              rcases get_isSome_of_lt hlt with ⟨e2, hge2⟩
              unfold setCellAt
              simp only [hge2]
              exact coldHasFile_setEntity hcold2 (by intro hx; simp at hx)
            | false =>
              exact absurd (congrArg Prod.fst hfree)
                (freeOp_hot_ne_false hg0 hc (Nat.sub_le _ _))
    | none =>
      cases hf : e.file with
      | none =>
        rw [valueOp_eq_cold_noFile hg hc hf, transientAt_of_threadSafe i hts0]
        exact hs0
      | some b =>
        cases hdeser : ctx.codec.deser b with
        | error msg =>
          rw [valueOp_eq_cold_badFile hg hc hf hdeser,
            transientAt_of_threadSafe i hts0]
          exact hs0
        | ok v =>
          rw [valueOp_eq_cold_ts hts hg hc hf hdeser]
          by_cases hneed :
              ctx.codec.sizeOf v - available ctx (upgradeAt ctx s e.uuid) = 0
          · rw [if_pos hneed]
            unfold setCellAt
            simp only [hg0]
            exact coldHasFile_setEntity hs0 (by intro hx; simp at hx)
          · rw [if_neg hneed]
            cases hfree : freeOp ctx (upgradeAt ctx s e.uuid)
                (ctx.codec.sizeOf v - available ctx (upgradeAt ctx s e.uuid)) with
            | mk rf s2f =>
              have hcold2 : coldHasFile s2f := by
                have h1 : coldHasFile (freeOp ctx (upgradeAt ctx s e.uuid)
                    (ctx.codec.sizeOf v - available ctx (upgradeAt ctx s e.uuid))).2 :=
                  freeOp_coldHasFile hts0 hs0
                rw [hfree] at h1
                exact h1
              have hg2 : s2f.entities[i]? = some e := by
                have h1 : (freeOp ctx (upgradeAt ctx s e.uuid)
                    (ctx.codec.sizeOf v - available ctx (upgradeAt ctx s e.uuid))).2.entities[i]? =
                    some e := freeOp_cold_get hg0 hc
                rw [hfree] at h1
                exact h1
              cases rf with
              | error err => exact hcold2
              | ok bfree =>
                cases bfree with
                | true =>
                  unfold setCellAt
                  simp only [hg2]
                  exact coldHasFile_setEntity hcold2 (by intro hx; simp at hx)
                | false =>
                  unfold setCellAt
                  simp only [hg2]
                  refine coldHasFile_setEntity hcold2 ?_
                  intro _
                  simp only [hf]
                  intro hx
                  exact Option.noConfusion hx

/-- In a thread-safe pool, SwapEntity::value preserves the thread-safe flag. -/
lemma valueOp_threadSafe {ctx : Ctx T} {s : Pool T} {i : Nat}
    (hts : s.threadSafe = true) : (valueOp ctx s i).2.threadSafe = true := by
  cases hg : s.entities[i]? with
  | none => rw [valueOp_eq_missing hg]; exact hts
  | some e =>
    have hts0 : (upgradeAt ctx s e.uuid).threadSafe = true := hts
    have hfree_ts : ∀ n : Nat,
        (freeOp ctx (upgradeAt ctx s e.uuid) n).2.threadSafe = true := by
      intro n
      have h1 := (freeOp_shape ctx (upgradeAt ctx s e.uuid) n).2.1
      rw [← h1]
      exact hts0
    have hbranch : ∀ n : Nat, ∀ v : T,
        (if n = 0
         then ((.ok v, setCellAt (upgradeAt ctx s e.uuid) i (some v)) :
            Except SwapError T × Pool T)
         else
           match freeOp ctx (upgradeAt ctx s e.uuid) n with
           | (.ok true, s2) => (.ok v, setCellAt s2 i (some v))
           | (.ok false, s2) => (.ok v, setCellAt s2 i none)
           | (.error err, s2) => (.error err, s2)).2.threadSafe = true := by
      intro n v
      by_cases hneed : n = 0
      · rw [if_pos hneed, setCellAt_threadSafe]
        exact hts0
      · rw [if_neg hneed]
        cases hfree : freeOp ctx (upgradeAt ctx s e.uuid) n with
        | mk rf s2f =>
          have h2 : s2f.threadSafe = true := by
            have h1 := hfree_ts n
            rw [hfree] at h1
            exact h1
          cases rf with
          | error err => exact h2
          | ok bfree =>
            cases bfree with
            | true => rw [setCellAt_threadSafe]; exact h2
            | false => rw [setCellAt_threadSafe]; exact h2
    cases hc : e.cell with
    | some v =>
      rw [valueOp_eq_hot_ts hts hg hc]
      exact hbranch _ v
    | none =>
      cases hf : e.file with
      | none =>
        rw [valueOp_eq_cold_noFile hg hc hf, transientAt_of_threadSafe i hts0]
        exact hts0
      | some b =>
        cases hdeser : ctx.codec.deser b with
        | error msg =>
          rw [valueOp_eq_cold_badFile hg hc hf hdeser,
            transientAt_of_threadSafe i hts0]
          exact hts0
        | ok v =>
          rw [valueOp_eq_cold_ts hts hg hc hf hdeser]
          exact hbranch _ v

/-- SwapEntity::value_unallocate never changes the thread-safe flag. -/
lemma valueUnallocateOp_threadSafe (ctx : Ctx T) (s : Pool T) (i : Nat) :
    (valueUnallocateOp ctx s i).2.threadSafe = s.threadSafe := by
  unfold valueUnallocateOp
  cases hg : s.entities[i]? with
  | none => rfl
  | some e =>
    cases hc : e.cell with
    | some v => simp only [hg, hc, setEntity_threadSafe]
    | none =>
      cases hf : e.file with
      | none => simp only [hg, hc, hf]
      | some b =>
        cases hdeser : ctx.codec.deser b with
        | error msg => simp only [hg, hc, hf, hdeser]
        | ok v => simp only [hg, hc, hf, hdeser]

/-- In a thread-safe pool, SwapEntity::value_allocate preserves the flag and the
cold-has-file invariant. -/
lemma valueAllocateOp_inv {ctx : Ctx T} {s : Pool T} {i : Nat}
    (hts : s.threadSafe = true) (hs : coldHasFile s) :
    (valueAllocateOp ctx s i).2.threadSafe = true ∧
    coldHasFile (valueAllocateOp ctx s i).2 := by
  unfold valueAllocateOp
  cases hg : s.entities[i]? with
  | none => simp only [hg]; exact ⟨hts, hs⟩
  | some e =>
    have hg0 : (upgradeAt ctx s e.uuid).entities[i]? = some e := hg
    have hts0 : (upgradeAt ctx s e.uuid).threadSafe = true := hts
    have hs0 : coldHasFile (upgradeAt ctx s e.uuid) := hs
    cases hc : e.cell with
    | some v => simp only [hg, hc]; exact ⟨hts0, hs0⟩
    | none =>
      cases hf : e.file with
      | none =>
        simp only [hg, hc, hf, transientAt_of_threadSafe i hts0]
        exact ⟨hts0, hs0⟩
      | some b =>
        cases hdeser : ctx.codec.deser b with
        | error msg =>
          simp only [hg, hc, hf, hdeser, transientAt_of_threadSafe i hts0]
          exact ⟨hts0, hs0⟩
        | ok v =>
          simp only [hg, hc, hf, hdeser]
          unfold setCellAt
          simp only [hg0]
          refine ⟨by rw [setEntity_threadSafe]; exact hts0, ?_⟩
          exact coldHasFile_setEntity hs0 (by intro hx; simp at hx)

/-- Spawning preserves the flag and the cold-has-file invariant. -/
lemma createOp_inv {ctx : Ctx T} {s : Pool T} {v : T} {u pc : Nat}
    (hs : coldHasFile s) :
    (createOp ctx s v u pc).2.threadSafe = s.threadSafe ∧
    coldHasFile (createOp ctx s v u pc).2 := by
  unfold createOp
  by_cases hfit : ctx.codec.sizeOf v > available ctx s
  · rw [if_pos hfit]
    cases hser : ctx.codec.ser v with
    | error msg => exact ⟨rfl, hs⟩
    | ok bytes =>
      refine ⟨rfl, ?_⟩
      intro x hx hcell
      rcases List.mem_append.mp hx with hmem | hmem
      · exact hs x hmem hcell
      · rcases List.mem_singleton.mp hmem with rfl
        simp
  · rw [if_neg hfit]
    refine ⟨rfl, ?_⟩
    intro x hx hcell
    rcases List.mem_append.mp hx with hmem | hmem
    · exact hs x hmem hcell
    · rcases List.mem_singleton.mp hmem with rfl
      simp at hcell

/-- SwapEntity::replace preserves the flag and the cold-has-file invariant. -/
lemma replaceOp_inv {s : Pool T} {i : Nat} {v : T} (hs : coldHasFile s) :
    (replaceOp s i v).2.threadSafe = s.threadSafe ∧
    coldHasFile (replaceOp s i v).2 := by
  unfold replaceOp
  cases hg : s.entities[i]? with
  | none => exact ⟨rfl, hs⟩
  | some e =>
    refine ⟨setEntity_threadSafe .., ?_⟩
    exact coldHasFile_setEntity hs (by intro hx; simp at hx)

/-- In a thread-safe pool, SwapEntity::update preserves the flag and the
cold-has-file invariant. -/
lemma updateOp_inv {ctx : Ctx T} {s : Pool T} {i : Nat} {v : T}
    (hts : s.threadSafe = true) (hs : coldHasFile s) :
    (updateOp ctx s i v).2.threadSafe = true ∧
    coldHasFile (updateOp ctx s i v).2 := by
  unfold updateOp
  cases hflush : flushOp ctx s i with
  | mk rflush s1 =>
    have hts1 : s1.threadSafe = true := by
      have h1 := (flushOp_shape ctx s i).2.1
      rw [hflush] at h1
      rw [← h1]
      exact hts
    have hs1 : coldHasFile s1 := by
      have h1 : coldHasFile (flushOp ctx s i).2 := flushOp_coldHasFile hts hs
      rw [hflush] at h1
      exact h1
    cases rflush with
    | error err => exact ⟨hts1, hs1⟩
    | ok u =>
      cases hg1 : s1.entities[i]? with
      | none => simp only [hg1]; exact ⟨hts1, hs1⟩
      | some e1 =>
        simp only [hg1]
        by_cases hneed :
            ctx.codec.sizeOf v - (available ctx s1 + entitySizeOf ctx e1) = 0
        · rw [if_pos hneed]
          refine ⟨by rw [setEntity_threadSafe]; exact hts1, ?_⟩
          exact coldHasFile_setEntity hs1 (by intro hx; simp at hx)
        · rw [if_neg hneed]
          cases hfree : freeOp ctx s1
              (ctx.codec.sizeOf v - (available ctx s1 + entitySizeOf ctx e1)) with
          | mk rfree s2 =>
            have hts2 : s2.threadSafe = true := by
              have h1 := (freeOp_shape ctx s1
                (ctx.codec.sizeOf v - (available ctx s1 + entitySizeOf ctx e1))).2.1
              rw [hfree] at h1
              rw [← h1]
              exact hts1
            have hs2 : coldHasFile s2 := by
              have h1 : coldHasFile (freeOp ctx s1
                  (ctx.codec.sizeOf v - (available ctx s1 + entitySizeOf ctx e1))).2 :=
                freeOp_coldHasFile hts1 hs1
              rw [hfree] at h1
              exact h1
            cases rfree with
            | error err => exact ⟨hts2, hs2⟩
            | ok bfree =>
              cases bfree with
              | false => exact ⟨hts2, hs2⟩
              | true =>
                cases hg2 : s2.entities[i]? with
                | none => simp only [hg2]; exact ⟨hts2, hs2⟩
                | some e2 =>
                  simp only [hg2]
                  refine ⟨by rw [setEntity_threadSafe]; exact hts2, ?_⟩
                  exact coldHasFile_setEntity hs2 (by intro hx; simp at hx)

/-- One public operation other than value_unallocate, run on a thread-safe pool,
preserves the thread-safe flag and the cold-has-file invariant. -/
lemma applyOp_inv {ctx : Ctx T} {s : Pool T} {op : Op T}
    (hts : s.threadSafe = true) (hs : coldHasFile s)
    (hop : op.usesUnallocate = false) :
    (applyOp ctx s op).threadSafe = true ∧ coldHasFile (applyOp ctx s op) := by
  cases op with
  | create v u pc =>
    have h : (createOp ctx s v u pc).2.threadSafe = s.threadSafe ∧
        coldHasFile (createOp ctx s v u pc).2 := createOp_inv hs
    exact ⟨h.1.trans hts, h.2⟩
  | getValue i => exact ⟨valueOp_threadSafe hts, valueOp_coldHasFile hts hs⟩
  | valueUnallocate i => simp [Op.usesUnallocate] at hop
  | valueAllocate i => exact valueAllocateOp_inv hts hs
  | update i v => exact updateOp_inv hts hs
  | replace i v =>
    have h : (replaceOp s i v).2.threadSafe = s.threadSafe ∧
        coldHasFile (replaceOp s i v).2 := replaceOp_inv hs
    exact ⟨h.1.trans hts, h.2⟩
  | flush i =>
    refine ⟨?_, flushOp_coldHasFile hts hs⟩
    show (flushOp ctx s i).2.threadSafe = true
    have h1 := (flushOp_shape ctx s i).2.1
    rw [← h1]
    exact hts

/-- Iterated preservation along any sequence of operations avoiding
value_unallocate, starting from a thread-safe pool. -/
lemma runOps_inv {ctx : Ctx T} (ops : List (Op T)) :
    ∀ s : Pool T, s.threadSafe = true → coldHasFile s →
      (∀ op ∈ ops, op.usesUnallocate = false) →
      (runOps ctx s ops).threadSafe = true ∧ coldHasFile (runOps ctx s ops) := by
  induction ops with
  | nil => intro s hts hs _; exact ⟨hts, hs⟩
  | cons op rest ih =>
    intro s hts hs hops
    have hop : op.usesUnallocate = false := hops op (List.mem_cons_self op rest)
    have h1 : (applyOp ctx s op).threadSafe = true ∧ coldHasFile (applyOp ctx s op) :=
      applyOp_inv hts hs hop
    exact ih (applyOp ctx s op) h1.1 h1.2
      (fun o ho => hops o (List.mem_cons_of_mem op ho))

lemma ranksGet_insert_self (m : RankMap) (u r : Nat) :
    ranksGet (ranksInsert m u r) u = r := by
  unfold ranksGet ranksInsert
  rw [List.find?_cons_of_pos]
  simp

/-- C8: under the default feature configuration (no timestamp-uuid, no
random-uuid) uuid::get is a pure function of the hashed value alone: for every
pure hasher the process-dependent inputs (wall clock reading, random entropy)
do not influence the result, so two calls on equal inputs, in the same or in
different processes, return the same 64-bit integer; equal paths therefore
always yield equal uuids. -/
theorem spec_uuid_deterministic {St : Type} (H : HasherModel St)
    (now1 now2 entropy1 entropy2 value : Bytes) :
    uuidGet H defaultUuidConfig now1 entropy1 value =
      uuidGet H defaultUuidConfig now2 entropy2 value := by
  simp [uuidGet, defaultUuidConfig]

/-- C9: for both reference ranking policies the rank read directly after an
upgrade is at least the rank the upgrade returned (it is in fact equal);
SwapUpgradeCountManager upgrade returns the previously stored rank plus one
(u64 addition, embedded as addition mod 2^64) and its rank reads the stored
counter, returning 0 for a uuid never upgraded. -/
theorem spec_manager_rank_monotone (m : RankMap) (u now : Nat) :
    ((lastUseMgr now).rank ((lastUseMgr now).upgrade m u).2 u ≥
        ((lastUseMgr now).upgrade m u).1) ∧
    (upgradeCountMgr.rank (upgradeCountMgr.upgrade m u).2 u ≥
        (upgradeCountMgr.upgrade m u).1) ∧
    ((upgradeCountMgr.upgrade m u).1 = (upgradeCountMgr.rank m u + 1) % 2 ^ 64) ∧
    (upgradeCountMgr.rank ([] : RankMap) u = 0) := by
  refine ⟨?_, ?_, rfl, rfl⟩
  · show ranksGet (ranksInsert m u now) u ≥ now
    rw [ranksGet_insert_self]
  · show ranksGet (ranksInsert m u ((ranksGet m u + 1) % 2 ^ 64)) u ≥
      (ranksGet m u + 1) % 2 ^ 64
    rw [ranksGet_insert_self]

/-- C3: SwapHandle::free implements exactly the specified eviction algorithm:
pair every live entity with its rank sampled at sort time, sort descending by
rank, then repeatedly pop the lowest-ranked entity, flushing each popped hot
entity and subtracting its pre-flush size minus post-flush size from the
remaining need saturating at 0; the loop returns true exactly when the
remaining need reaches 0 (second and third conjunct) and false exactly when the
list is exhausted while the need is positive (fourth conjunct). -/
theorem spec_free_eviction_algorithm {T : Type} (ctx : Ctx T) (s : Pool T) (n : Nat) :
    freeOp ctx s n = freeSpec ctx s n ∧
    (∀ (l : List (Nat × Nat)) (s1 : Pool T), freeSpecLoop ctx l 0 s1 = (.ok true, s1)) ∧
    (∀ (p : Nat × Nat) (l : List (Nat × Nat)) (m : Nat) (s1 : Pool T),
      freeSpecLoop ctx (p :: l) (m + 1) s1 =
        match freeStep ctx p.2 (m + 1) s1 with
        | (.error err, s2) => (.error err, s2)
        | (.ok n2, s2) => freeSpecLoop ctx l n2 s2) ∧
    (∀ (m : Nat) (s1 : Pool T),
      freeSpecLoop ctx ([] : List (Nat × Nat)) (m + 1) s1 = (.ok false, s1)) := by
  refine ⟨?_, freeSpecLoop_zero ctx, ?_, ?_⟩
  · unfold freeSpec
    exact freeOp_eq_spec ctx s n
  · intro p l m s1
    exact freeSpecLoop_eq_cons p l s1 (Nat.succ_ne_zero m)
  · intro m s1
    exact freeSpecLoop_eq_nil s1 (Nat.succ_ne_zero m)

/-- C1 evaluated at a failing input: this revision of entity.rs never consults
the transformer stored in the handle.  Flushing a hot entity holding [1,2,3]
through a pool whose transformer appends a zero byte on forward writes the raw
serialization [1,2,3] to the swap file instead of forward([1,2,3]) = [1,2,3,0],
and reading a cold entity whose file holds [9,9] returns deserialize([9,9])
without applying backward (which would first drop the trailing byte).  The
TransformForward and TransformBackward error kinds are never produced. -/
theorem spec_flush_bypasses_transformer :
    (flushOp vecCtxZero ⟨100, true, [⟨1, some [1,2,3], none, 0⟩], []⟩ 0).2.entities =
      [⟨1, none, some [1,2,3], 0⟩] ∧
    vecCtxZero.transformer.forward (match vecCtxZero.codec.ser [1,2,3] with
      | .ok b => b
      | .error _ => []) = .ok [1,2,3,0] ∧
    ([1,2,3] : Bytes) ≠ [1,2,3,0] ∧
    (valueUnallocateOp vecCtxZero ⟨100, true, [⟨2, none, some [9,9], 0⟩], []⟩ 0).1 =
      .ok [9,9] ∧
    vecCtxZero.transformer.backward [9,9] = .ok [9] ∧
    ([9,9] : Bytes) ≠ [9] := by
  exact ⟨rfl, rfl, by decide, rfl, rfl, by decide⟩

/-- C6 evaluated at a failing input: value_unallocate on a hot entity takes the
value and returns it but never flushes it, contradicting its own documentation
(entity.rs lines 135-142) and the claim: starting from a hot entity freshly
created within budget (so with no backing file), the call returns the value and
leaves the entity cold with no backing file on disk, and a later read fails
with the Io error kind.  The rank table is indeed left untouched. -/
theorem spec_value_unallocate_drops_file :
    valueUnallocateOp vecCtx ⟨100, true, [⟨5, some [9,9], none, 3⟩], [(5, 1)]⟩ 0 =
      (.ok [9,9], ⟨100, true, [⟨5, none, none, 3⟩], [(5, 1)]⟩) ∧
    Entity.isCold (⟨5, none, none, 3⟩ : Entity Bytes) = true ∧
    (⟨5, none, none, 3⟩ : Entity Bytes).file = none ∧
    (valueUnallocateOp vecCtx ⟨100, true, [⟨5, none, none, 3⟩], [(5, 1)]⟩ 0).1 =
      .error .io := by
  exact ⟨rfl, rfl, rfl, rfl⟩

/-- C4 amended: in a thread-safe pool (the default) a failing flush leaves the
pool, and in particular the hot entity and its value, exactly unchanged. -/
theorem spec_flush_error_atomic {ctx : Ctx T} {s s2 : Pool T} {i : Nat}
    {e : Entity T} {v : T} {err : SwapError}
    (hts : s.threadSafe = true)
    (hg : s.entities[i]? = some e) (hc : e.cell = some v)
    (hres : flushOp ctx s i = (.error err, s2)) :
    s2 = s ∧ s2.entities[i]? = some e := by
  have h := flushOp_error_threadSafe hts hres
  exact ⟨h, h ▸ hg⟩

theorem spec_flush_error_atomic_witness :
    (flushOp failCtx ⟨10, true, [⟨1, some [5], none, 0⟩], []⟩ 0).2 =
      (⟨10, true, [⟨1, some [5], none, 0⟩], []⟩ : Pool Bytes) :=
  (@spec_flush_error_atomic Bytes failCtx
    ⟨10, true, [⟨1, some [5], none, 0⟩], []⟩
    (flushOp failCtx ⟨10, true, [⟨1, some [5], none, 0⟩], []⟩ 0).2
    0 ⟨1, some [5], none, 0⟩ [5] (.serialize "ser failed")
    rfl rfl rfl rfl).1

/-- C4 as stated is false for a pool in non-thread-safe mode: a failing
serialization during flush leaves the entity cold with its value lost (the
in-place cell was left holding the taken-out default), not hot with the value
intact. -/
theorem spec_flush_error_atomic_cex :
    (flushOp failCtx ⟨10, false, [⟨1, some [5], none, 0⟩], []⟩ 0).1 =
      .error (.serialize "ser failed") ∧
    (flushOp failCtx ⟨10, false, [⟨1, some [5], none, 0⟩], []⟩ 0).2.entities =
      [⟨1, none, none, 0⟩] ∧
    Entity.isHot (⟨1, none, none, 0⟩ : Entity Bytes) = false := by
  exact ⟨rfl, rfl, rfl⟩

set_option maxRecDepth 8000

/-- C7 as stated is false on the code: SizeOf for a Vec adds the 24-byte stack
footprint of the Vec itself, so a 128-byte vector has size 152 > 128 and a
budget-128 pool spawns it cold with its serialization on disk; used() is then 0
and available() is 128, not 128 and 0. -/
theorem spec_create_128_cex :
    vecCodec.sizeOf (List.replicate 128 0) = 152 ∧
    (createOp vecCtx (emptyPool Bytes 128 true) (List.replicate 128 0) 3 6).1 =
      .ok () ∧
    ((createOp vecCtx (emptyPool Bytes 128 true) (List.replicate 128 0) 3 6).2.entities.map
      Entity.isHot) = [false] ∧
    used vecCtx (createOp vecCtx (emptyPool Bytes 128 true) (List.replicate 128 0) 3 6).2 = 0 ∧
    available vecCtx
      (createOp vecCtx (emptyPool Bytes 128 true) (List.replicate 128 0) 3 6).2 = 128 := by
  refine ⟨by decide, rfl, rfl, rfl, rfl⟩

/-- C7 amended: spawning a 128-byte vector into a budget-128 pool produces a
cold entity (since size_of counts the 24-byte Vec header, 152 > 128), leaving
used() = 0 and available() = 128; in general a successful create leaves the new
entity hot exactly when size_of(value) is at most handle.available(). -/
theorem spec_create_hot_iff :
    (∀ (T : Type) (ctx : Ctx T) (s s2 : Pool T) (v : T) (u pc : Nat) (r : Unit),
      createOp ctx s v u pc = (.ok r, s2) →
      ∃ e, s2.entities = s.entities ++ [e] ∧
        (e.isHot = true ↔ ctx.codec.sizeOf v ≤ available ctx s)) ∧
    ((createOp vecCtx (emptyPool Bytes 128 true) (List.replicate 128 0) 3 6).2.entities.map
      Entity.isHot) = [false] ∧
    used vecCtx (createOp vecCtx (emptyPool Bytes 128 true) (List.replicate 128 0) 3 6).2 = 0 ∧
    available vecCtx
      (createOp vecCtx (emptyPool Bytes 128 true) (List.replicate 128 0) 3 6).2 = 128 := by
  refine ⟨?_, rfl, rfl, rfl⟩
  intro T ctx s s2 v u pc r hres
  unfold createOp at hres
  by_cases hfit : ctx.codec.sizeOf v > available ctx s
  · rw [if_pos hfit] at hres
    cases hser : ctx.codec.ser v with
    | error msg =>
      rw [hser] at hres
      exact absurd (congrArg Prod.fst hres) (by simp)
    | ok bytes =>
      rw [hser] at hres
      have h2 := congrArg Prod.snd hres
      simp only at h2
      refine ⟨⟨u, none, some bytes, pc⟩, ?_, ?_⟩
      · rw [← h2]; rfl
      · simp only [Entity.isHot, Option.isSome_none]
        constructor
        · intro hx; exact absurd hx (by simp)
        · intro hx; omega
  · rw [if_neg hfit] at hres
    have h2 := congrArg Prod.snd hres
    simp only at h2
    refine ⟨⟨u, some v, none, pc⟩, ?_, ?_⟩
    · rw [← h2]; rfl
    · simp only [Entity.isHot, Option.isSome_some]
      constructor
      · intro _; omega
      · intro _; trivial

theorem spec_create_hot_iff_witness :
    ∃ e : Entity Bytes,
      (createOp vecCtx (emptyPool Bytes 128 true) (List.replicate 128 0) 3 6).2.entities =
        (emptyPool Bytes 128 true).entities ++ [e] ∧
      (e.isHot = true ↔
        vecCtx.codec.sizeOf (List.replicate 128 0) ≤
          available vecCtx (emptyPool Bytes 128 true)) :=
  spec_create_hot_iff.1 Bytes vecCtx (emptyPool Bytes 128 true)
    (createOp vecCtx (emptyPool Bytes 128 true) (List.replicate 128 0) 3 6).2
    (List.replicate 128 0) 3 6 () rfl

/-- C5 amended: at every observation point exactly one of is_hot and is_cold
holds (they are complementary by construction); and along every operation
sequence on a thread-safe pool that avoids value_unallocate, every cold entity
has a backing file on disk.  (value_unallocate violates the second half, see
the counterexample.) -/
theorem spec_hot_cold_exclusive {ctx : Ctx T} (allocated : Nat) (ops : List (Op T))
    (hops : ∀ op ∈ ops, op.usesUnallocate = false) :
    ∀ e ∈ (runOps ctx (emptyPool T allocated true) ops).entities,
      ((e.isHot = true ∧ ¬ e.isCold = true) ∨
        (e.isCold = true ∧ ¬ e.isHot = true)) ∧
      (e.isCold = true → e.file ≠ none) := by
  intro e he
  have hinv : (runOps ctx (emptyPool T allocated true) ops).threadSafe = true ∧
      coldHasFile (runOps ctx (emptyPool T allocated true) ops) :=
    runOps_inv ops (emptyPool T allocated true) rfl
      (fun x hx => absurd hx (List.not_mem_nil x)) hops
  constructor
  · cases hcell : e.cell with
    | some v => left; simp [Entity.isHot, Entity.isCold, hcell]
    | none => right; simp [Entity.isHot, Entity.isCold, hcell]
  · intro hcold
    exact hinv.2 e he (Option.isNone_iff_eq_none.mp hcold)

theorem spec_hot_cold_exclusive_witness :
    (((⟨3, none, some [1, 2], 1⟩ : Entity Bytes).isHot = true ∧
        ¬ (⟨3, none, some [1, 2], 1⟩ : Entity Bytes).isCold = true) ∨
      ((⟨3, none, some [1, 2], 1⟩ : Entity Bytes).isCold = true ∧
        ¬ (⟨3, none, some [1, 2], 1⟩ : Entity Bytes).isHot = true)) ∧
    ((⟨3, none, some [1, 2], 1⟩ : Entity Bytes).isCold = true →
      (⟨3, none, some [1, 2], 1⟩ : Entity Bytes).file ≠ none) :=
  @spec_hot_cold_exclusive Bytes vecCtx 100 [Op.create [1, 2] 3 1, Op.flush 0]
    (by decide) ⟨3, none, some [1, 2], 1⟩ (by decide)

/-- C5 as stated is false: value_unallocate on a freshly created hot entity
(which has no backing file yet) reaches an observation point where the entity
is cold and its backing file does not exist. -/
theorem spec_hot_cold_exclusive_cex :
    (runOps vecCtx (emptyPool Bytes 100 true)
        [Op.create [1, 2, 3] 7 4, Op.valueUnallocate 0]).entities =
      [⟨7, none, none, 4⟩] ∧
    Entity.isCold (⟨7, none, none, 4⟩ : Entity Bytes) = true ∧
    (⟨7, none, none, 4⟩ : Entity Bytes).file = none := by
  exact ⟨rfl, rfl, rfl⟩

/-- C2 amended (thread-safe pools, the default): a successful value() upgrades
the rank of the entity; the returned value is the hot value or the deserialized
backing file of a cold entity; with excess = size(v) minus available (saturating
at 0, measured after the upgrade), the entity ends hot holding the value when
excess = 0 or handle.free(excess) returns true, and otherwise it was already
cold and remains exactly as it was, backing file retained.  (In a
non-thread-safe pool a hot entity can instead end cold with no file, see the
counterexample.) -/
theorem spec_value_semantics {ctx : Ctx T} {s s2 : Pool T} {i : Nat}
    {e : Entity T} {r : T}
    (hts : s.threadSafe = true)
    (hg : s.entities[i]? = some e)
    (hres : valueOp ctx s i = (.ok r, s2)) :
    s2.ranks = (ctx.mgr.upgrade s.ranks e.uuid).2 ∧
    (e.cell = some r ∨
      (e.cell = none ∧ ∃ b, e.file = some b ∧ ctx.codec.deser b = .ok r)) ∧
    ((ctx.codec.sizeOf r - available ctx (upgradeAt ctx s e.uuid) = 0 ∨
        (freeOp ctx (upgradeAt ctx s e.uuid)
          (ctx.codec.sizeOf r - available ctx (upgradeAt ctx s e.uuid))).1 = .ok true) →
      ∃ e2, s2.entities[i]? = some e2 ∧ e2.cell = some r) ∧
    ((ctx.codec.sizeOf r - available ctx (upgradeAt ctx s e.uuid) ≠ 0 ∧
        (freeOp ctx (upgradeAt ctx s e.uuid)
          (ctx.codec.sizeOf r - available ctx (upgradeAt ctx s e.uuid))).1 ≠ .ok true) →
      e.cell = none ∧ s2.entities[i]? = some e) := by
  have hg0 : (upgradeAt ctx s e.uuid).entities[i]? = some e := hg
  have hts0 : (upgradeAt ctx s e.uuid).threadSafe = true := hts
  cases hc : e.cell with
  | some v =>
    rw [valueOp_eq_hot_ts hts hg hc] at hres
    by_cases hneed : ctx.codec.sizeOf v - available ctx (upgradeAt ctx s e.uuid) = 0
    · rw [if_pos hneed] at hres
      injection hres with hr hs2
      injection hr with hrv
      subst hrv
      subst hs2
      refine ⟨setCellAt_ranks .., Or.inl rfl, ?_, ?_⟩
      · intro _
        exact ⟨{ e with cell := some v }, setCellAt_get_self (some v) hg0, rfl⟩
      · intro hx
        exact absurd hneed hx.1
    · rw [if_neg hneed] at hres
      cases hfree : freeOp ctx (upgradeAt ctx s e.uuid)
          (ctx.codec.sizeOf v - available ctx (upgradeAt ctx s e.uuid)) with
      | mk rf s2f =>
        rw [hfree] at hres
        cases rf with
        | error err => exact absurd (congrArg Prod.fst hres) (by simp)
        | ok bfree =>
          cases bfree with
          | false =>
            exact absurd (congrArg Prod.fst hfree)
              (freeOp_hot_ne_false hg0 hc (Nat.sub_le _ _))
          | true =>
            injection hres with hr hs2
            injection hr with hrv
            subst hrv
            subst hs2
            have hshape : sameShape (upgradeAt ctx s e.uuid) s2f := by
              have h1 := freeOp_shape ctx (upgradeAt ctx s e.uuid)
                (ctx.codec.sizeOf v - available ctx (upgradeAt ctx s e.uuid))
              rw [hfree] at h1
              exact h1
            have hlt : i < s2f.entities.length := by
              have := hshape.2.2.2
              rw [← this]
              exact lt_length_of_get hg0
            rcases get_isSome_of_lt hlt with ⟨e2f, hge2⟩
            refine ⟨?_, Or.inl rfl, ?_, ?_⟩
            · rw [setCellAt_ranks]
              exact hshape.2.2.1.symm
            · intro _
              exact ⟨{ e2f with cell := some v }, setCellAt_get_self (some v) hge2, rfl⟩
            · intro hx
              exact absurd (congrArg Prod.fst hfree) hx.2
  | none =>
    cases hf : e.file with
    | none =>
      rw [valueOp_eq_cold_noFile hg hc hf] at hres
      exact absurd (congrArg Prod.fst hres) (by simp)
    | some b =>
      cases hdeser : ctx.codec.deser b with
      | error msg =>
        rw [valueOp_eq_cold_badFile hg hc hf hdeser] at hres
        exact absurd (congrArg Prod.fst hres) (by simp)
      | ok v =>
        rw [valueOp_eq_cold_ts hts hg hc hf hdeser] at hres
        by_cases hneed :
            ctx.codec.sizeOf v - available ctx (upgradeAt ctx s e.uuid) = 0
        · rw [if_pos hneed] at hres
          injection hres with hr hs2
          injection hr with hrv
          subst hrv
          subst hs2
          refine ⟨setCellAt_ranks .., Or.inr ⟨rfl, b, rfl, hdeser⟩, ?_, ?_⟩
          · intro _
            exact ⟨{ e with cell := some v }, setCellAt_get_self (some v) hg0, rfl⟩
          · intro hx
            exact absurd hneed hx.1
        · rw [if_neg hneed] at hres
          cases hfree : freeOp ctx (upgradeAt ctx s e.uuid)
              (ctx.codec.sizeOf v - available ctx (upgradeAt ctx s e.uuid)) with
          | mk rf s2f =>
            rw [hfree] at hres
            have hshape : sameShape (upgradeAt ctx s e.uuid) s2f := by
              have h1 := freeOp_shape ctx (upgradeAt ctx s e.uuid)
                (ctx.codec.sizeOf v - available ctx (upgradeAt ctx s e.uuid))
              rw [hfree] at h1
              exact h1
            have hg2 : s2f.entities[i]? = some e := by
              have h1 : (freeOp ctx (upgradeAt ctx s e.uuid)
                  (ctx.codec.sizeOf v - available ctx (upgradeAt ctx s e.uuid))).2.entities[i]? =
                  some e := freeOp_cold_get hg0 hc
              rw [hfree] at h1
              exact h1
            cases rf with
            | error err => exact absurd (congrArg Prod.fst hres) (by simp)
            | ok bfree =>
              cases bfree with
              | true =>
                injection hres with hr hs2
                injection hr with hrv
                subst hrv
                subst hs2
                refine ⟨?_, Or.inr ⟨rfl, b, rfl, hdeser⟩, ?_, ?_⟩
                · rw [setCellAt_ranks]
                  exact hshape.2.2.1.symm
                · intro _
                  exact ⟨{ e with cell := some v }, setCellAt_get_self (some v) hg2, rfl⟩
                · intro hx
                  exact absurd (congrArg Prod.fst hfree) hx.2
              | false =>
                injection hres with hr hs2
                injection hr with hrv
                subst hrv
                subst hs2
                refine ⟨?_, Or.inr ⟨rfl, b, rfl, hdeser⟩, ?_, ?_⟩
                · rw [setCellAt_ranks]
                  exact hshape.2.2.1.symm
                · rintro (hx | hx)
                  · exact absurd hx hneed
                  · rw [congrArg Prod.fst hfree] at hx
                    exact absurd hx (by simp)
                · intro _
                  refine ⟨rfl, ?_⟩
                  rw [setCellAt_get_self none hg2, entity_set_cell_none_self hc]

theorem spec_value_semantics_witness :
    ((valueOp vecCtx ⟨100, true, [⟨1, none, some [7, 8], 0⟩], []⟩ 0).2).ranks =
      (vecCtx.mgr.upgrade ([] : RankMap) 1).2 :=
  (@spec_value_semantics Bytes vecCtx ⟨100, true, [⟨1, none, some [7, 8], 0⟩], []⟩
    (valueOp vecCtx ⟨100, true, [⟨1, none, some [7, 8], 0⟩], []⟩ 0).2
    0 ⟨1, none, some [7, 8], 0⟩ [7, 8] rfl rfl rfl).1

/-- C2 as stated is false for a pool in non-thread-safe mode: starting from an
empty budget-50 pool, create a small value (hot, no file) and replace it by a
124-byte value; value() then returns the value but leaves the entity cold with
no backing file, because during the update the cell holds the default none, so
free() sees no hot entity, fails, and the taken-out value is never restored nor
flushed. -/
theorem spec_value_semantics_cex :
    (runOps vecCtx (emptyPool Bytes 50 false)
        [Op.create [1] 2 0, Op.replace 0 (List.replicate 100 7)]).entities =
      [⟨2, some (List.replicate 100 7), none, 0⟩] ∧
    (valueOp vecCtx (runOps vecCtx (emptyPool Bytes 50 false)
        [Op.create [1] 2 0, Op.replace 0 (List.replicate 100 7)]) 0).1.toOption =
      some (List.replicate 100 7) ∧
    (valueOp vecCtx (runOps vecCtx (emptyPool Bytes 50 false)
        [Op.create [1] 2 0, Op.replace 0 (List.replicate 100 7)]) 0).2.entities =
      [⟨2, none, none, 0⟩] := by
  refine ⟨rfl, by decide, by decide⟩


lemma cellAt_eq {s : Pool T} {i : Nat} {e : Entity T}
    (hg : s.entities[i]? = some e) : cellAt s i = e.cell := by
  unfold cellAt
  rw [hg]
  rfl

lemma cellAt_setCellAt_self {s : Pool T} {i : Nat} {e : Entity T} (c : Option T)
    (hg : s.entities[i]? = some e) : cellAt (setCellAt s i c) i = c := by
  unfold cellAt
  rw [setCellAt_get_self c hg]
  rfl

/-- C10: in the single-threaded model, whenever the internal update of
value_allocate completes without error the cell holds a value, either the
previous hot value or the value just deserialized from the backing file, so the
get_copy on which the source calls the unsafe unwrap_unchecked never returns
None, and value_allocate returns that value with the entity left hot. -/
theorem spec_value_allocate_unwrap_safe {ctx : Ctx T} {s : Pool T} {i : Nat}
    {e : Entity T} (hg : s.entities[i]? = some e) :
    (valueAllocateOp ctx s i).1 ≠ .ok none ∧
    (∀ (v : T) (s2 : Pool T), valueAllocateOp ctx s i = (.ok (some v), s2) →
      cellAt s2 i = some v ∧
      (e.cell = some v ∨
        (e.cell = none ∧ ∃ b, e.file = some b ∧ ctx.codec.deser b = .ok v))) := by
  have hg0 : (upgradeAt ctx s e.uuid).entities[i]? = some e := hg
  unfold valueAllocateOp
  cases hc : e.cell with
  | some v =>
    have hca : cellAt (upgradeAt ctx s e.uuid) i = some v :=
      (cellAt_eq hg0).trans hc
    constructor
    · simp only [hg, hc, hca]
      simp
    · intro w s2 hres
      simp only [hg, hc] at hres
      rw [hca] at hres
      injection hres with hr hs2
      injection hr with hw
      injection hw with hvw
      subst hvw
      subst hs2
      exact ⟨hca, Or.inl rfl⟩
  | none =>
    cases hf : e.file with
    | none =>
      constructor
      · simp only [hg, hc, hf]
        simp
      · intro w s2 hres
        simp only [hg, hc, hf] at hres
        exact absurd (congrArg Prod.fst hres) (by simp)
    | some b =>
      cases hdeser : ctx.codec.deser b with
      | error msg =>
        constructor
        · simp only [hg, hc, hf, hdeser]
          simp
        · intro w s2 hres
          simp only [hg, hc, hf, hdeser] at hres
          exact absurd (congrArg Prod.fst hres) (by simp)
      | ok v =>
        have hca : cellAt (setCellAt (upgradeAt ctx s e.uuid) i (some v)) i =
            some v := cellAt_setCellAt_self (some v) hg0
        constructor
        · simp only [hg, hc, hf, hdeser, hca]
          simp
        · intro w s2 hres
          simp only [hg, hc, hf, hdeser] at hres
          rw [hca] at hres
          injection hres with hr hs2
          injection hr with hw
          injection hw with hvw
          subst hvw
          subst hs2
          exact ⟨hca, Or.inr ⟨rfl, b, rfl, hdeser⟩⟩

theorem spec_value_allocate_unwrap_safe_witness :
    cellAt (valueAllocateOp vecCtx ⟨10, true, [⟨9, none, some [4, 5], 0⟩], []⟩ 0).2 0 =
      some [4, 5] :=
  ((@spec_value_allocate_unwrap_safe Bytes vecCtx
      ⟨10, true, [⟨9, none, some [4, 5], 0⟩], []⟩ 0 ⟨9, none, some [4, 5], 0⟩ rfl).2
    [4, 5] (valueAllocateOp vecCtx ⟨10, true, [⟨9, none, some [4, 5], 0⟩], []⟩ 0).2 rfl).1

end SwapPool
